import Mathlib

/-!
# Verification of `scripts/prototyping/battery-watch.py`

A shallow embedding of the battery-watch polling script. The script polls a
battery charge counter (`charge_now`, micro-amp-hours) and a RAPL energy
counter (`energy_uj`, micro-joules); whenever the charge value changes it
records a change event (elapsed time, delta, voltage, RAPL delta), maintains
a sliding window of the most recent `AVG_WINDOW` events, and on SIGINT prints
an interval histogram and (when populated) a power-delta histogram.

Numeric values that Python holds as `float` are modelled as exact rationals
(`ℚ`); Python integers are `ℤ`. File reads are pure inputs here: each poll
iteration is a `Sample` carrying the values the iteration would read. Output
is modelled structurally (`ReportLine`, `Report`) rather than as formatted
strings; the wall-clock timestamp string of a report line is presentation
only and is not modelled.
-/

namespace BatteryWatch

/-- `POLL_S = 0.001` — polling period in seconds (presentation/timing only). -/
def POLL_S : ℚ := 1 / 1000

/-- `HIST_BUCKET_MS = 100` — interval-histogram bucket width (a Python int). -/
def HIST_BUCKET_MS : ℤ := 100

/-- `AVG_WINDOW = 30` — sliding-window capacity / warmup threshold. -/
def AVG_WINDOW : Nat := 30

/-- `bar_w = 40` — histogram bar width in characters. -/
def bar_w : Nat := 40

/-- `DELTA_BUCKET_W = 0.5` — power-delta histogram bucket width. -/
def DELTA_BUCKET_W : ℚ := 1 / 2

/-- The unit-conversion constant `3.6e-6` appearing in the power formulas
(micro-amp-hours times micro-volts to watt-milliseconds). -/
def CONV : ℚ := 36 / 10 ^ 7

/-- Python `int()` applied to a float: truncation toward zero. -/
def pyInt (q : ℚ) : ℤ :=
  if q < 0 then -⌊-q⌋ else ⌊q⌋

/-- Python float floor division `a // b`: the floor of the quotient,
returned as a (float, here rational) value. -/
def pyFloorDiv (a b : ℚ) : ℚ :=
  (⌊a / b⌋ : ℚ)

/-- Python `round()` to an integer: round half to even (banker's rounding). -/
def pyRound (q : ℚ) : ℤ :=
  let f := ⌊q⌋
  if q - f < 1 / 2 then f
  else if 1 / 2 < q - f then f + 1
  else if f % 2 = 0 then f else f + 1

/-- One entry of the sliding window, as appended by
`window.append((delta, dt_ms, voltage, rapl_delta_uj))`. -/
structure WEntry where
  delta : ℤ
  dt_ms : ℚ
  voltage : ℤ
  rapl_delta : ℤ
  deriving Repr, DecidableEq

/-- The mutable state of `main`'s polling loop. -/
structure St where
  intervals : List ℚ
  power_deltas : List ℚ
  window : List WEntry
  prev_charge : ℤ
  prev_rapl : ℤ
  prev_time : ℚ
  sample_num : Nat
  deriving Repr, DecidableEq

/-- The values one loop iteration reads from the system: `charge_now`,
`time.monotonic()` (in seconds), `voltage_now` and the RAPL counter.
`voltage` and `rapl` are only consulted when a change is detected,
mirroring the fact that the script only reads those files then. -/
structure Sample where
  charge : ℤ
  now : ℚ
  voltage : ℤ
  rapl : ℤ
  deriving Repr, DecidableEq

/-- The data printed in one report line (the formatted timestamp string is
presentation only and omitted). Fields appear in the printed order. -/
structure ReportLine where
  sample_num : Nat
  dt_ms : ℚ
  charge : ℤ
  delta : ℤ
  voltage : ℤ
  power_w : ℚ
  avg_w : ℚ
  rapl_w : ℚ
  rapl_avg_w : ℚ
  delta_w : ℚ
  deriving Repr, DecidableEq

/-- The state after `main`'s initialization: one read of each counter plus a
monotonic-clock baseline, empty histories, zero events. -/
def initState (c0 r0 : ℤ) (t0 : ℚ) : St :=
  { intervals := []
    power_deltas := []
    window := []
    prev_charge := c0
    prev_rapl := r0
    prev_time := t0
    sample_num := 0 }

/-- `sum(d * v * 3.6e-6 for d, _, v, _ in window)`. -/
def sum_energy (window : List WEntry) : ℚ :=
  (window.map fun e => (e.delta : ℚ) * (e.voltage : ℚ) * CONV).sum

/-- `sum(t for _, t, _, _ in window)`. -/
def sum_dt (window : List WEntry) : ℚ :=
  (window.map fun e => e.dt_ms).sum

/-- `sum(r for _, _, _, r in window)`. -/
def sum_rapl (window : List WEntry) : ℚ :=
  (window.map fun e => (e.rapl_delta : ℚ)).sum

/-- One iteration of the `while True` loop, given the values it would read.
Returns the successor state and the report line printed, if any; when the
charge is unchanged the iteration is `continue` — no output, no state
change. -/
def step (s : St) (smp : Sample) : St × Option ReportLine :=
  if smp.charge = s.prev_charge then (s, none)
  else
    let dt_ms : ℚ := (smp.now - s.prev_time) * 1000
    let delta : ℤ := smp.charge - s.prev_charge
    let rapl_delta : ℤ := smp.rapl - s.prev_rapl
    let rapl_w : ℚ := if 0 < dt_ms then (rapl_delta : ℚ) / (dt_ms * 1000) else 0
    let power_w : ℚ :=
      if 0 < dt_ms then |(delta : ℚ) * (smp.voltage : ℚ) * CONV / dt_ms| else 0
    let sample_num := s.sample_num + 1
    let intervals := s.intervals ++ [dt_ms]
    let window0 := s.window ++ [⟨delta, dt_ms, smp.voltage, rapl_delta⟩]
    let window := if AVG_WINDOW < window0.length then window0.tail else window0
    let sdt := sum_dt window
    let avg_w : ℚ := if 0 < sdt then |sum_energy window / sdt| else 0
    let rapl_avg_w : ℚ := if 0 < sdt then sum_rapl window / (sdt * 1000) else 0
    let power_deltas :=
      if AVG_WINDOW ≤ sample_num then s.power_deltas ++ [avg_w - rapl_avg_w]
      else s.power_deltas
    (⟨intervals, power_deltas, window, smp.charge, smp.rapl, smp.now, sample_num⟩,
      some ⟨sample_num, dt_ms, smp.charge, delta, smp.voltage, power_w, avg_w,
            rapl_w, rapl_avg_w, avg_w - rapl_avg_w⟩)

/-- Run the polling loop over a finite list of samples, collecting the
report lines emitted. -/
def run (s : St) : List Sample → St × List ReportLine
  | [] => (s, [])
  | smp :: rest =>
    let r := step s smp
    let rec' := run r.1 rest
    (rec'.1, (r.2.toList) ++ rec'.2)

/-- The raw tuple `(delta, dt_ms, voltage, rapl_delta)` that a change event
detected in state `s` appends to the sliding window. -/
def entryOf (s : St) (smp : Sample) : WEntry :=
  ⟨smp.charge - s.prev_charge, (smp.now - s.prev_time) * 1000, smp.voltage,
    smp.rapl - s.prev_rapl⟩

/-- The window tuples appended by the change events of a run, in arrival
order (an observer of `run`; unchanged samples contribute nothing). -/
def runEntries (s : St) : List Sample → List WEntry
  | [] => []
  | smp :: rest =>
    (if smp.charge = s.prev_charge then [] else [entryOf s smp]) ++
      runEntries (step s smp).1 rest

/-! ## The SIGINT handler `show_histogram` -/

/-- Interval-histogram bucket key: `int(iv // HIST_BUCKET_MS) * HIST_BUCKET_MS`. -/
def ibucket (v : ℚ) : ℤ :=
  pyInt (pyFloorDiv v (HIST_BUCKET_MS : ℚ)) * HIST_BUCKET_MS

/-- Number of intervals of `l` landing in interval-bucket `b`
(the count the `buckets` dict holds at key `b`). -/
def bcount (l : List ℚ) (b : ℤ) : Nat :=
  l.countP fun v => decide (ibucket v = b)

/-- `max(buckets.values()) if buckets else 1` for the interval histogram. -/
def max_count (l : List ℚ) : Nat :=
  if l = [] then 1 else (l.map fun v => bcount l (ibucket v)).foldr max 0

/-- Length of the bar `"#" * round(count / max_count * bar_w) if count else ""`. -/
def barLen (count maxc : Nat) : ℤ :=
  if count = 0 then 0 else pyRound ((count : ℚ) / (maxc : ℚ) * (bar_w : ℚ))

/-- Python `range(lo, hi, step)` for a positive step, as a list of integers. -/
def rangeStep (lo hi step : ℤ) : List ℤ :=
  (List.range ((hi - lo + step - 1) / step).toNat).map fun (i : ℕ) =>
    lo + step * (i : ℤ)

/-- Summary statistics block: count, `s[0]`, `s[n//2]`, `s[-1]`, `sum(s)/n`
of the sorted data `s`. -/
structure Stats where
  n : Nat
  min : ℚ
  median : ℚ
  max : ℚ
  mean : ℚ
  deriving Repr, DecidableEq

/-- The `Min/Median/Max/Mean` line printed for a (non-empty) data series. -/
def statsOf (l : List ℚ) : Stats :=
  let s := l.insertionSort (· ≤ ·)
  { n := l.length
    min := s.headD 0
    median := s.getD (l.length / 2) 0
    max := s.getLastD 0
    mean := s.sum / (l.length : ℚ) }

/-- One histogram row: bucket key, raw count, bar length. -/
structure Row (κ : Type) where
  key : κ
  count : Nat
  bar : ℤ
  deriving Repr, DecidableEq

/-- The rows of the interval histogram: `for b in range(lo, hi + 1,
HIST_BUCKET_MS)` with `lo = int(s[0] // H) * H` and
`hi = int(s[-1] // H) * H + H`. -/
def intervalRows (l : List ℚ) : List (Row ℤ) :=
  let s := l.insertionSort (· ≤ ·)
  let lo := ibucket (s.headD 0)
  let hi := ibucket (s.getLastD 0) + HIST_BUCKET_MS
  (rangeStep lo (hi + 1) HIST_BUCKET_MS).map fun b =>
    ⟨b, bcount l b, barLen (bcount l b) (max_count l)⟩

/-- Power-delta bucket key for a non-negative value:
`int(d // DELTA_BUCKET_W) * DELTA_BUCKET_W`. -/
def pos_bucket (w v : ℚ) : ℚ :=
  (pyInt (pyFloorDiv v w) : ℚ) * w

/-- Power-delta bucket key for a negative value:
`-((-d // DELTA_BUCKET_W) + 1) * DELTA_BUCKET_W`. -/
def neg_bucket (w v : ℚ) : ℚ :=
  -(pyFloorDiv (-v) w + 1) * w

/-- Power-delta bucket assignment (the `if d < 0 … else …` in the dict build,
also used for `lo`). -/
def dbucket (v : ℚ) : ℚ :=
  if v < 0 then neg_bucket DELTA_BUCKET_W v else pos_bucket DELTA_BUCKET_W v

/-- Number of power deltas of `l` landing in delta-bucket `b`. -/
def dcount (l : List ℚ) (b : ℚ) : Nat :=
  l.countP fun v => decide (dbucket v = b)

/-- `max(dbuckets.values())` (no default: the script only reaches this with a
non-empty history). -/
def dmax_count (l : List ℚ) : Nat :=
  (l.map fun v => dcount l (dbucket v)).foldr max 0

/-- Upper end of the delta-histogram range:
`hi = int(sd[-1] // DELTA_BUCKET_W + 1) * DELTA_BUCKET_W`. -/
def deltaHi (sdLast : ℚ) : ℚ :=
  (pyInt (pyFloorDiv sdLast DELTA_BUCKET_W + 1) : ℚ) * DELTA_BUCKET_W

/-- The rows of the power-delta histogram: the
`while b <= hi + DELTA_BUCKET_W / 2` loop starting at `lo` and stepping by
`DELTA_BUCKET_W`. -/
def deltaRows (l : List ℚ) : List (Row ℚ) :=
  let sd := l.insertionSort (· ≤ ·)
  let lo := dbucket (sd.headD 0)
  let hi := deltaHi (sd.getLastD 0)
  (List.range (⌊(hi + DELTA_BUCKET_W / 2 - lo) / DELTA_BUCKET_W⌋ + 1).toNat).map
    fun (k : ℕ) =>
      let b := lo + DELTA_BUCKET_W * (k : ℚ)
      ⟨b, dcount l b, barLen (dcount l b) (dmax_count l)⟩

/-- The structured output of the SIGINT handler: either the bare
`"No intervals recorded."` message, or the interval-histogram block
optionally followed by the power-delta block (present exactly when the
power-delta history is non-empty). -/
inductive Report where
  | noIntervals : Report
  | hist (istats : Stats) (irows : List (Row ℤ))
      (dpart : Option (Stats × List (Row ℚ))) : Report
  deriving Repr, DecidableEq

/-- `show_histogram`: the structured report plus the process exit status
(`sys.exit(0)` on every path). -/
def show_histogram (st : St) : Report × Nat :=
  if st.intervals = [] then (.noIntervals, 0)
  else
    (.hist (statsOf st.intervals) (intervalRows st.intervals)
      (if st.power_deltas = [] then none
       else some (statsOf st.power_deltas, deltaRows st.power_deltas)), 0)

/-! ## Helper lemmas -/

theorem pyInt_intCast (k : ℤ) : pyInt (k : ℚ) = k := by
  unfold pyInt
  split
  · rw [← Int.cast_neg, Int.floor_intCast, neg_neg]
  · exact Int.floor_intCast k

theorem pos_bucket_floor (w v : ℚ) : pos_bucket w v = (⌊v / w⌋ : ℚ) * w := by
  unfold pos_bucket pyFloorDiv
  rw [pyInt_intCast]

theorem ibucket_eq (v : ℚ) : ibucket v = ⌊v / 100⌋ * 100 := by
  unfold ibucket pyFloorDiv HIST_BUCKET_MS
  rw [pyInt_intCast]
  norm_num

theorem ibucket_mono {a b : ℚ} (h : a ≤ b) : ibucket a ≤ ibucket b := by
  rw [ibucket_eq, ibucket_eq]
  have hf : ⌊a / 100⌋ ≤ ⌊b / 100⌋ :=
    Int.floor_le_floor (by linarith : a / 100 ≤ b / 100)
  omega

theorem pyRound_zero : pyRound 0 = 0 := by norm_num [pyRound]

theorem barLen_eq_pyRound (c mc : Nat) :
    barLen c mc = pyRound ((c : ℚ) / (mc : ℚ) * (bar_w : ℚ)) := by
  unfold barLen
  split
  · rename_i h
    subst h
    simp [pyRound_zero]
  · rfl

/-! ## Claims -/

/-- **C1.** For every state of the polling loop and every primary-counter
reading, a report line is emitted (and a change event recorded) iff the new
value differs from the previously recorded value; on an equal value the
iteration leaves the state unchanged and produces no output. -/
theorem C1_change_detection (s : St) (smp : Sample) :
    ((step s smp).2 = none ↔ smp.charge = s.prev_charge) ∧
    (smp.charge = s.prev_charge → step s smp = (s, none)) ∧
    (smp.charge ≠ s.prev_charge →
      ((step s smp).2).isSome = true ∧
      (step s smp).1.sample_num = s.sample_num + 1 ∧
      (step s smp).1.intervals = s.intervals ++ [(smp.now - s.prev_time) * 1000]) := by
  by_cases h : smp.charge = s.prev_charge <;> simp [step, h]

/-- Witness for C1 at a concrete state and sample. -/
theorem C1_change_detection_witness :
    ((step (initState 0 0 0) ⟨0, 1, 2, 3⟩).2 = none ↔
      (⟨0, 1, 2, 3⟩ : Sample).charge = (initState 0 0 0).prev_charge) ∧
    ((⟨0, 1, 2, 3⟩ : Sample).charge = (initState 0 0 0).prev_charge →
      step (initState 0 0 0) ⟨0, 1, 2, 3⟩ = (initState 0 0 0, none)) ∧
    ((⟨0, 1, 2, 3⟩ : Sample).charge ≠ (initState 0 0 0).prev_charge →
      ((step (initState 0 0 0) ⟨0, 1, 2, 3⟩).2).isSome = true ∧
      (step (initState 0 0 0) ⟨0, 1, 2, 3⟩).1.sample_num =
        (initState 0 0 0).sample_num + 1 ∧
      (step (initState 0 0 0) ⟨0, 1, 2, 3⟩).1.intervals =
        (initState 0 0 0).intervals ++
          [((⟨0, 1, 2, 3⟩ : Sample).now - (initState 0 0 0).prev_time) * 1000]) :=
  C1_change_detection (initState 0 0 0) ⟨0, 1, 2, 3⟩

/-- **C2 counterexample.** At `v = -0.5`, `w = 0.5` the script's
negative-value bucket formula gives `-1.0`, while mathematical
floor-toward-negative-infinity gives `-0.5`: the two disagree for negative
values that are exact multiples of the bucket width. -/
theorem C2_negative_multiple_cex :
    neg_bucket DELTA_BUCKET_W (-(1 / 2)) = -1 ∧
    (⌊(-(1 / 2) : ℚ) / DELTA_BUCKET_W⌋ : ℚ) * DELTA_BUCKET_W = -(1 / 2) ∧
    neg_bucket DELTA_BUCKET_W (-(1 / 2)) ≠
      (⌊(-(1 / 2) : ℚ) / DELTA_BUCKET_W⌋ : ℚ) * DELTA_BUCKET_W := by
  norm_num [neg_bucket, pyFloorDiv, DELTA_BUCKET_W]

/-- **C2 (amended).** For a positive bucket width `w`: a value `v ≥ 0` is
assigned to bucket `⌊v/w⌋*w`; a negative `v` is assigned to
`-((-v // w) + 1)*w`, which agrees with mathematical floor semantics for
every negative `v` that is not an exact integer multiple of `w`, but lands
one bucket lower (`⌊v/w⌋*w - w`) when `v` is an exact negative multiple of
`w`; in particular `v = -0.1`, `w = 0.5` falls into bucket `-0.5`. -/
theorem C2_bucket_assignment (w v : ℚ) (hw : 0 < w) :
    (0 ≤ v → pos_bucket w v = (⌊v / w⌋ : ℚ) * w) ∧
    (v < 0 → (∀ k : ℤ, v ≠ (k : ℚ) * w) →
      neg_bucket w v = (⌊v / w⌋ : ℚ) * w) ∧
    (v < 0 → (∃ k : ℤ, v = (k : ℚ) * w) →
      neg_bucket w v = (⌊v / w⌋ : ℚ) * w - w) ∧
    dbucket (-(1 / 10)) = -(1 / 2) := by
  have hw0 : w ≠ 0 := ne_of_gt hw
  refine ⟨fun _ => pos_bucket_floor w v, fun _ hni => ?_, fun _ hex => ?_,
    by norm_num [dbucket, neg_bucket, pos_bucket, pyFloorDiv, DELTA_BUCKET_W]⟩
  · have hne : v / w ≠ (⌊v / w⌋ : ℚ) := by
      intro he
      exact hni ⌊v / w⌋ (by rw [← he, div_mul_cancel₀ _ hw0])
    have hceil : ⌈v / w⌉ = ⌊v / w⌋ + 1 := by
      rw [Int.ceil_eq_iff]
      constructor
      · push_cast
        have h1 : (⌊v / w⌋ : ℚ) ≤ v / w := Int.floor_le _
        have h2 : (⌊v / w⌋ : ℚ) ≠ v / w := fun he => hne he.symm
        have := lt_of_le_of_ne h1 h2
        linarith
      · push_cast
        exact le_of_lt (Int.lt_floor_add_one _)
    unfold neg_bucket pyFloorDiv
    rw [neg_div, Int.floor_neg, hceil]
    push_cast
    ring
  · obtain ⟨k, rfl⟩ := hex
    have h1 : ⌊(-((k : ℚ) * w)) / w⌋ = -k := by
      rw [show (-((k : ℚ) * w)) / w = ((-k : ℤ) : ℚ) by
        push_cast
        field_simp]
      exact Int.floor_intCast _
    have h2 : ⌊((k : ℚ) * w) / w⌋ = k := by
      rw [mul_div_cancel_right₀ _ hw0]
      exact Int.floor_intCast _
    unfold neg_bucket pyFloorDiv
    rw [h1, h2]
    push_cast
    ring

/-- Witness for C2 at `w = 1/2`, `v = -1/10`. -/
theorem C2_bucket_assignment_witness :
    ((0 : ℚ) ≤ -(1 / 10) →
      pos_bucket (1 / 2) (-(1 / 10)) = (⌊(-(1 / 10) : ℚ) / (1 / 2)⌋ : ℚ) * (1 / 2)) ∧
    ((-(1 / 10) : ℚ) < 0 → (∀ k : ℤ, (-(1 / 10) : ℚ) ≠ (k : ℚ) * (1 / 2)) →
      neg_bucket (1 / 2) (-(1 / 10)) = (⌊(-(1 / 10) : ℚ) / (1 / 2)⌋ : ℚ) * (1 / 2)) ∧
    ((-(1 / 10) : ℚ) < 0 → (∃ k : ℤ, (-(1 / 10) : ℚ) = (k : ℚ) * (1 / 2)) →
      neg_bucket (1 / 2) (-(1 / 10)) =
        (⌊(-(1 / 10) : ℚ) / (1 / 2)⌋ : ℚ) * (1 / 2) - 1 / 2) ∧
    dbucket (-(1 / 10)) = -(1 / 2) :=
  C2_bucket_assignment (1 / 2) (-(1 / 10)) (by norm_num)

/-- **C5.** Every power computation is guarded against a zero denominator:
a change event with zero elapsed time reports both instantaneous power
estimates as zero, and a zero window-total elapsed time makes both
windowed-average power values exactly zero. -/
theorem C5_zero_guards (s : St) (smp : Sample) (r : ReportLine)
    (hr : (step s smp).2 = some r) :
    (r.dt_ms = 0 → r.power_w = 0 ∧ r.rapl_w = 0) ∧
    (sum_dt (step s smp).1.window = 0 → r.avg_w = 0 ∧ r.rapl_avg_w = 0) := by
  by_cases h : smp.charge = s.prev_charge
  · simp [step, h] at hr
  · simp only [step, h, if_false, Option.some.injEq] at hr
    subst hr
    constructor
    · intro h0
      simp only [ReportLine.mk.injEq] at h0 ⊢
      simp [h0]
    · intro h0
      simp only [step, h, if_false] at h0
      simp only [List.length_append, List.length_cons, List.length_nil,
        Nat.zero_add] at h0
      simp [h0]

/-- Witness for C5: a change event with zero elapsed time (and hence a
window whose total elapsed time is zero). -/
theorem C5_zero_guards_witness :
    (((⟨1, 0, 1, 1, 2, 0, 0, 0, 0, 0⟩ : ReportLine)).dt_ms = 0 →
      ((⟨1, 0, 1, 1, 2, 0, 0, 0, 0, 0⟩ : ReportLine)).power_w = 0 ∧
      ((⟨1, 0, 1, 1, 2, 0, 0, 0, 0, 0⟩ : ReportLine)).rapl_w = 0) ∧
    (sum_dt (step (initState 0 0 5) ⟨1, 5, 2, 3⟩).1.window = 0 →
      ((⟨1, 0, 1, 1, 2, 0, 0, 0, 0, 0⟩ : ReportLine)).avg_w = 0 ∧
      ((⟨1, 0, 1, 1, 2, 0, 0, 0, 0, 0⟩ : ReportLine)).rapl_avg_w = 0) :=
  C5_zero_guards (initState 0 0 5) ⟨1, 5, 2, 3⟩ ⟨1, 0, 1, 1, 2, 0, 0, 0, 0, 0⟩
    (by norm_num [step, initState, sum_dt, sum_energy, sum_rapl, CONV, AVG_WINDOW])

/-- **C7.** End-to-end scenario: readings `100, 100, 105, 105, 110` with
constant voltage `12000000` µV and the RAPL counter gaining `50000` µJ per
detected change over `1000` ms each give exactly two change events
(`100→105` and `105→110`), an interval history of length 2, and an
instantaneous power of `|5 * 12000000 * 3.6e-6 / 1000| = 0.216 = 27/125` W
on each event. -/
theorem C7_scenario :
    (run (initState 100 0 0)
        [⟨100, 1 / 2, 12000000, 50000⟩, ⟨105, 1, 12000000, 50000⟩,
         ⟨105, 3 / 2, 12000000, 50000⟩, ⟨110, 2, 12000000, 100000⟩]).2.map
        (fun r => (r.sample_num, r.dt_ms, r.delta, r.power_w)) =
      [(1, 1000, 5, 27 / 125), (2, 1000, 5, 27 / 125)] ∧
    (run (initState 100 0 0)
        [⟨100, 1 / 2, 12000000, 50000⟩, ⟨105, 1, 12000000, 50000⟩,
         ⟨105, 3 / 2, 12000000, 50000⟩, ⟨110, 2, 12000000, 100000⟩]).1.intervals =
      [1000, 1000] ∧
    (run (initState 100 0 0)
        [⟨100, 1 / 2, 12000000, 50000⟩, ⟨105, 1, 12000000, 50000⟩,
         ⟨105, 3 / 2, 12000000, 50000⟩, ⟨110, 2, 12000000, 100000⟩]).1.sample_num =
      2 ∧
    (27 / 125 : ℚ) = |5 * 12000000 * CONV / 1000| := by
  norm_num [run, step, initState, sum_dt, sum_energy, sum_rapl, CONV, AVG_WINDOW, abs]

/-- **C8.** The median printed at termination is the element at index
`n // 2` of the sorted data (the upper of the two middle elements for even
counts): `[10, 20, 30] ↦ 20`, `[10, 20, 30, 40] ↦ 30`; the index `n // 2`
is always in range for non-empty data. -/
theorem C8_median (l : List ℚ) (h : l ≠ []) :
    (statsOf [10, 20, 30]).median = 20 ∧
    (statsOf [10, 20, 30, 40]).median = 30 ∧
    (statsOf l).median = (l.insertionSort (· ≤ ·)).getD (l.length / 2) 0 ∧
    l.length / 2 < l.length := by
  refine ⟨by norm_num [statsOf, List.insertionSort, List.orderedInsert],
    by norm_num [statsOf, List.insertionSort, List.orderedInsert], rfl, ?_⟩
  exact Nat.div_lt_self (List.length_pos.mpr h) one_lt_two

/-- Witness for C8 at `l = [5]`. -/
theorem C8_median_witness :
    (statsOf [10, 20, 30]).median = 20 ∧
    (statsOf [10, 20, 30, 40]).median = 30 ∧
    (statsOf [5]).median =
      (([5] : List ℚ).insertionSort (· ≤ ·)).getD (([5] : List ℚ).length / 2) 0 ∧
    ([5] : List ℚ).length / 2 < ([5] : List ℚ).length :=
  C8_median [5] (by simp)

/-- Run invariant: the interval history has one entry per change event, and
the power-delta history has one entry per change event past the warmup
threshold. -/
theorem run_counters (samples : List Sample) (s : St)
    (h1 : s.intervals.length = s.sample_num)
    (h2 : s.power_deltas.length = s.sample_num - (AVG_WINDOW - 1)) :
    (run s samples).1.intervals.length = (run s samples).1.sample_num ∧
    (run s samples).1.power_deltas.length =
      (run s samples).1.sample_num - (AVG_WINDOW - 1) := by
  induction samples generalizing s with
  | nil => exact ⟨h1, h2⟩
  | cons smp rest ih =>
    simp only [run]
    by_cases h : smp.charge = s.prev_charge
    · have hs : step s smp = (s, none) := by simp [step, h]
      rw [hs]
      exact ih s h1 h2
    · apply ih
      · simp [step, h, h1]
      · simp only [step, h, if_false]
        have h2' := h2
        unfold AVG_WINDOW at h2' ⊢
        split
        · simp only [List.length_append, List.length_cons, List.length_nil]
          omega
        · omega

/-- **C9.** When the interrupt arrives with zero recorded change events the
handler's output is exactly the no-intervals-recorded message with exit
status 0, and no histogram blocks are produced. -/
theorem C9_no_events (c0 r0 : ℤ) (t0 : ℚ) (samples : List Sample)
    (h : (run (initState c0 r0 t0) samples).1.sample_num = 0) :
    show_histogram (run (initState c0 r0 t0) samples).1 =
      (Report.noIntervals, 0) := by
  have hinv := (run_counters samples (initState c0 r0 t0) rfl rfl).1
  rw [h] at hinv
  have he : (run (initState c0 r0 t0) samples).1.intervals = [] :=
    List.length_eq_zero.mp hinv
  simp [show_histogram, he]

/-- Witness for C9: one poll that reads an unchanged counter value. -/
theorem C9_no_events_witness :
    show_histogram (run (initState 5 0 0) [⟨5, 1, 2, 3⟩]).1 =
      (Report.noIntervals, 0) :=
  C9_no_events 5 0 0 [⟨5, 1, 2, 3⟩] (by rfl)

/-- **C10.** The elapsed time of the first change event is measured from
the monotonic-clock baseline `t0` taken at initialization, and the first
interval is appended to the interval history by exactly the same rule as
every later interval. -/
theorem C10_first_interval (c0 r0 : ℤ) (t0 : ℚ) (smp : Sample)
    (h : smp.charge ≠ c0) :
    (initState c0 r0 t0).prev_time = t0 ∧
    (step (initState c0 r0 t0) smp).1.intervals = [(smp.now - t0) * 1000] ∧
    (∀ s : St, ∀ p : Sample, p.charge ≠ s.prev_charge →
      (step s p).1.intervals = s.intervals ++ [(p.now - s.prev_time) * 1000]) := by
  refine ⟨rfl, ?_, ?_⟩
  · simp [step, initState, h]
  · intro s p hp
    simp [step, hp]

/-- Witness for C10 at a concrete first change event. -/
theorem C10_first_interval_witness :
    (initState 0 0 0).prev_time = 0 ∧
    (step (initState 0 0 0) ⟨1, 2, 3, 4⟩).1.intervals =
      [((⟨1, 2, 3, 4⟩ : Sample).now - 0) * 1000] ∧
    (∀ s : St, ∀ p : Sample, p.charge ≠ s.prev_charge →
      (step s p).1.intervals = s.intervals ++ [(p.now - s.prev_time) * 1000]) :=
  C10_first_interval 0 0 0 ⟨1, 2, 3, 4⟩ (by decide)

/-- **C6.** A windowed power delta is appended exactly when the running
change-event count has reached `AVG_WINDOW`; hence a run with at least one
but fewer than `AVG_WINDOW` change events yields a report with the interval
histogram only and no power-delta block. -/
theorem C6_warmup (c0 r0 : ℤ) (t0 : ℚ) (samples : List Sample) :
    (∀ s : St, ∀ p : Sample, p.charge ≠ s.prev_charge →
      (step s p).1.power_deltas.length =
        (if AVG_WINDOW ≤ s.sample_num + 1 then s.power_deltas.length + 1
         else s.power_deltas.length)) ∧
    (run (initState c0 r0 t0) samples).1.power_deltas.length =
      (run (initState c0 r0 t0) samples).1.sample_num - (AVG_WINDOW - 1) ∧
    (0 < (run (initState c0 r0 t0) samples).1.sample_num →
      (run (initState c0 r0 t0) samples).1.sample_num < AVG_WINDOW →
      show_histogram (run (initState c0 r0 t0) samples).1 =
        (Report.hist (statsOf (run (initState c0 r0 t0) samples).1.intervals)
          (intervalRows (run (initState c0 r0 t0) samples).1.intervals) none,
         0)) := by
  obtain ⟨hlen, hpd⟩ := run_counters samples (initState c0 r0 t0) rfl rfl
  refine ⟨?_, hpd, ?_⟩
  · intro s p hp
    by_cases h30 : AVG_WINDOW ≤ s.sample_num + 1 <;> simp [step, hp, h30]
  · intro hpos hlt
    have hpd0 : (run (initState c0 r0 t0) samples).1.power_deltas = [] := by
      apply List.length_eq_zero.mp
      rw [hpd]
      unfold AVG_WINDOW at *
      omega
    have hne : (run (initState c0 r0 t0) samples).1.intervals ≠ [] := by
      intro he
      rw [he] at hlen
      simp at hlen
      omega
    simp [show_histogram, hne, hpd0]

/-- Witness for C6: a run with exactly one change event — the report has an
interval histogram and no power-delta block. -/
theorem C6_warmup_witness :
    show_histogram (run (initState 100 0 0) [⟨101, 1, 2, 3⟩]).1 =
      (Report.hist
        (statsOf (run (initState 100 0 0) [⟨101, 1, 2, 3⟩]).1.intervals)
        (intervalRows (run (initState 100 0 0) [⟨101, 1, 2, 3⟩]).1.intervals)
        none, 0) :=
  (C6_warmup 100 0 0 [⟨101, 1, 2, 3⟩]).2.2 (by decide) (by decide)

/-- A change event appends its tuple to the window and evicts the oldest
entry exactly when the appended window exceeds `AVG_WINDOW`. -/
theorem step_window (s : St) (smp : Sample) (h : smp.charge ≠ s.prev_charge) :
    (step s smp).1.window =
      if AVG_WINDOW < s.window.length + 1 then (s.window ++ [entryOf s smp]).tail
      else s.window ++ [entryOf s smp] := by
  simp [step, h, entryOf]

/-- Sliding-window invariant: running from any state whose window is within
capacity, the final window is the suffix of (initial window ++ appended
tuples) that keeps at most the last `AVG_WINDOW` entries. -/
theorem run_window_suffix (samples : List Sample) (s : St)
    (h : s.window.length ≤ AVG_WINDOW) :
    (run s samples).1.window =
      (s.window ++ runEntries s samples).drop
        (s.window.length + (runEntries s samples).length - AVG_WINDOW) := by
  induction samples generalizing s with
  | nil =>
    simp [run, runEntries, Nat.sub_eq_zero_of_le h]
  | cons smp rest ih =>
    by_cases hc : smp.charge = s.prev_charge
    · have hs : step s smp = (s, none) := by simp [step, hc]
      simp only [run, runEntries, hc, if_pos, hs, List.nil_append]
      exact ih s h
    · have hlenW : (s.window ++ [entryOf s smp]).length = s.window.length + 1 := by
        simp

      have hw : (step s smp).1.window =
          (s.window ++ [entryOf s smp]).drop
            ((s.window ++ [entryOf s smp]).length - AVG_WINDOW) := by
        rw [step_window s smp hc]
        split
        · rename_i h30
          rw [← List.drop_one]
          rw [hlenW]
          congr 1
          omega
        · rename_i h30
          rw [hlenW]
          have h0 : s.window.length + 1 - AVG_WINDOW = 0 := by omega
          rw [h0, List.drop_zero]
      have hwlen : (step s smp).1.window.length ≤ AVG_WINDOW := by
        rw [hw, List.length_drop, hlenW]
        omega
      have hrec := ih (step s smp).1 hwlen
      simp only [run]
      rw [hrec, hw]
      have hk : (s.window ++ [entryOf s smp]).length - AVG_WINDOW ≤
          (s.window ++ [entryOf s smp]).length := Nat.sub_le _ _
      have hE : runEntries s (smp :: rest) =
          entryOf s smp :: runEntries (step s smp).1 rest := by
        simp [runEntries, if_neg hc]
      rw [hE, ← List.drop_append_of_le_length hk, List.drop_drop]
      have hassoc : s.window ++ entryOf s smp :: runEntries (step s smp).1 rest =
          (s.window ++ [entryOf s smp]) ++ runEntries (step s smp).1 rest := by
        simp
      rw [hassoc]
      congr 1
      simp only [List.length_drop, List.length_append, List.length_cons,
        List.length_nil]
      omega

/-- **C4.** The sliding window never holds more than `AVG_WINDOW = 30`
entries; its contents are always exactly the most recent (at most 30)
change events' `(delta, dt_ms, voltage, rapl_delta)` tuples in arrival
order, and once at least 30 events have occurred its length is exactly
30. -/
theorem C4_window_bound (c0 r0 : ℤ) (t0 : ℚ) (samples : List Sample) :
    (run (initState c0 r0 t0) samples).1.window =
      (runEntries (initState c0 r0 t0) samples).drop
        ((runEntries (initState c0 r0 t0) samples).length - AVG_WINDOW) ∧
    (run (initState c0 r0 t0) samples).1.window.length ≤ AVG_WINDOW ∧
    (AVG_WINDOW ≤ (runEntries (initState c0 r0 t0) samples).length →
      (run (initState c0 r0 t0) samples).1.window.length = AVG_WINDOW) := by
  have h0 := run_window_suffix samples (initState c0 r0 t0)
    (by simp [initState])
  have h : (run (initState c0 r0 t0) samples).1.window =
      (runEntries (initState c0 r0 t0) samples).drop
        ((runEntries (initState c0 r0 t0) samples).length - AVG_WINDOW) := by
    simpa [initState] using h0
  refine ⟨h, ?_, ?_⟩
  · rw [h, List.length_drop]
    omega
  · intro h30
    rw [h, List.length_drop]
    omega

/-- Witness for C4: a run of 31 consecutive change events leaves exactly
`AVG_WINDOW` entries in the window. -/
theorem C4_window_bound_witness :
    (run (initState 0 0 0)
        ((List.range 31).map fun k =>
          (⟨(k : ℤ) + 1, (k : ℚ) + 1, 0, 0⟩ : Sample))).1.window.length =
      AVG_WINDOW :=
  (C4_window_bound 0 0 0 _).2.2 (by decide)

/-- In a `≤`-sorted list every element is at most the last element. -/
theorem sorted_le_getLast (s : List ℚ) (hs : List.Sorted (· ≤ ·) s) :
    ∀ x ∈ s, ∀ y, s.getLast? = some y → x ≤ y := by
  induction s with
  | nil => intro x hx; simp at hx
  | cons a t ih =>
    intro x hx y hy
    cases t with
    | nil =>
      simp only [List.mem_singleton] at hx
      simp only [List.getLast?_singleton, Option.some.injEq] at hy
      rw [hx, ← hy]
    | cons b u =>
      rw [List.getLast?_cons_cons] at hy
      have hs2 := (List.sorted_cons.mp hs).2
      rcases List.mem_cons.mp hx with rfl | hxt
      · have hab : x ≤ b := (List.sorted_cons.mp hs).1 b (List.mem_cons_self b u)
        exact le_trans hab (ih hs2 b (List.mem_cons_self b u) y hy)
      · exact ih hs2 x hxt y hy

/-- For non-empty data, `s[0]` of the insertion-sorted list is the minimum
and `s[-1]` is the maximum. -/
theorem sorted_min_max (l : List ℚ) (h : l ≠ []) :
    ((l.insertionSort (· ≤ ·)).headD 0 ∈ l ∧
     ∀ x ∈ l, (l.insertionSort (· ≤ ·)).headD 0 ≤ x) ∧
    ((l.insertionSort (· ≤ ·)).getLastD 0 ∈ l ∧
     ∀ x ∈ l, x ≤ (l.insertionSort (· ≤ ·)).getLastD 0) := by
  have hlen : (l.insertionSort (· ≤ ·)).length = l.length :=
    List.length_insertionSort _ l
  have hsne : l.insertionSort (· ≤ ·) ≠ [] := by
    intro he
    rw [he] at hlen
    exact h (List.length_eq_zero.mp hlen.symm)
  have hsorted : List.Sorted (· ≤ ·) (l.insertionSort (· ≤ ·)) :=
    List.sorted_insertionSort _ l
  have hmem : ∀ x : ℚ, x ∈ l.insertionSort (· ≤ ·) ↔ x ∈ l :=
    fun x => List.mem_insertionSort _
  constructor
  · obtain ⟨a, t, hst⟩ : ∃ a t, l.insertionSort (· ≤ ·) = a :: t := by
      cases hc : l.insertionSort (· ≤ ·) with
      | nil => exact absurd hc hsne
      | cons a t => exact ⟨a, t, rfl⟩
    rw [hst]
    simp only [List.headD_cons]
    constructor
    · exact (hmem a).mp (hst ▸ List.mem_cons_self a t)
    · intro x hx
      have hxs : x ∈ a :: t := hst ▸ (hmem x).mpr hx
      rcases List.mem_cons.mp hxs with rfl | hxt
      · exact le_refl x
      · exact (List.sorted_cons.mp (hst ▸ hsorted)).1 x hxt
  · have hLD : (l.insertionSort (· ≤ ·)).getLastD 0 =
        (l.insertionSort (· ≤ ·)).getLast hsne := by
      rw [List.getLastD_eq_getLast?, List.getLast?_eq_getLast_of_ne_nil hsne]
      rfl
    constructor
    · rw [hLD]
      exact (hmem _).mp (List.getLast_mem hsne)
    · intro x hx
      rw [hLD]
      exact sorted_le_getLast _ hsorted x ((hmem x).mpr hx) _
        (List.getLast?_eq_getLast_of_ne_nil hsne)

/-- Length of the model of Python `range(lo, hi, step)`. -/
theorem rangeStep_length (lo hi st : ℤ) :
    (rangeStep lo hi st).length = ((hi - lo + st - 1) / st).toNat := by
  simp only [rangeStep, List.length_map, List.length_range]

/-- **C3 counterexample.** With the single interval `10`, the bucket
containing both the minimum and the maximum is `0`, yet the histogram
prints two rows (`0` and `100`): the row range always extends one full
bucket width past the bucket containing the maximum. -/
theorem C3_extra_row_cex :
    ibucket (10 : ℚ) = 0 ∧
    (intervalRows [10]).map (fun r => r.key) = [0, 100] := by
  have h10 : ibucket (10 : ℚ) = 0 := by
    rw [ibucket_eq]
    norm_num
  refine ⟨h10, ?_⟩
  have hrows : rangeStep 0 (0 + HIST_BUCKET_MS + 1) HIST_BUCKET_MS = [0, 100] := by
    decide
  simp only [intervalRows, List.insertionSort, List.orderedInsert,
    List.headD_cons, List.getLastD_cons, List.getLastD_nil, h10, hrows,
    List.map_map, List.map_cons, List.map_nil, Function.comp]

/-- **C3 (amended).** For non-empty interval data the histogram has one row
per bucket from the bucket containing the minimum up to one bucket width
PAST the bucket containing the maximum (a final always-empty row), stepping
by the bucket width and including empty buckets in between; row `i` is
bucket `min_bucket + 100*i` with its raw count, and every bar length is
`round(count / max_count * 40)` (Python banker's rounding). -/
theorem C3_interval_histogram (l : List ℚ) (h : l ≠ []) :
    ∃ m M : ℚ, m ∈ l ∧ M ∈ l ∧ (∀ x ∈ l, m ≤ x ∧ x ≤ M) ∧
      intervalRows l =
        (rangeStep (ibucket m) (ibucket M + HIST_BUCKET_MS + 1) HIST_BUCKET_MS).map
          (fun b => ⟨b, bcount l b, barLen (bcount l b) (max_count l)⟩) ∧
      (intervalRows l).length =
        ((ibucket M - ibucket m) / HIST_BUCKET_MS).toNat + 2 ∧
      (∀ i : Nat, ∀ hil : i < (intervalRows l).length,
        (intervalRows l).getD i ⟨0, 0, 0⟩ =
          ⟨ibucket m + HIST_BUCKET_MS * (i : ℤ),
           bcount l (ibucket m + HIST_BUCKET_MS * (i : ℤ)),
           barLen (bcount l (ibucket m + HIST_BUCKET_MS * (i : ℤ)))
             (max_count l)⟩) ∧
      (∀ c mc : Nat, barLen c mc = pyRound ((c : ℚ) / (mc : ℚ) * (bar_w : ℚ))) := by
  obtain ⟨⟨hmmem, hmle⟩, hMmem, hMle⟩ := sorted_min_max l h
  have hmono : ibucket ((l.insertionSort (· ≤ ·)).headD 0) ≤
      ibucket ((l.insertionSort (· ≤ ·)).getLastD 0) :=
    ibucket_mono (hMle _ hmmem)
  refine ⟨(l.insertionSort (· ≤ ·)).headD 0, (l.insertionSort (· ≤ ·)).getLastD 0,
    hmmem, hMmem, fun x hx => ⟨hmle x hx, hMle x hx⟩, rfl, ?_, ?_,
    barLen_eq_pyRound⟩
  · have ha := ibucket_eq ((l.insertionSort (· ≤ ·)).headD 0)
    have hb := ibucket_eq ((l.insertionSort (· ≤ ·)).getLastD 0)
    simp only [intervalRows, List.length_map, rangeStep_length]
    rw [ha, hb] at hmono ⊢
    unfold HIST_BUCKET_MS
    omega
  · intro i hil
    rw [List.getD_eq_getElem _ _ hil]
    simp only [intervalRows, rangeStep, List.getElem_map, List.getElem_range]

/-- Witness for C3 at the single-interval history `[10]`. -/
theorem C3_interval_histogram_witness :
    ∃ m M : ℚ, m ∈ ([10] : List ℚ) ∧ M ∈ ([10] : List ℚ) ∧
      (∀ x ∈ ([10] : List ℚ), m ≤ x ∧ x ≤ M) ∧
      intervalRows [10] =
        (rangeStep (ibucket m) (ibucket M + HIST_BUCKET_MS + 1) HIST_BUCKET_MS).map
          (fun b => ⟨b, bcount [10] b, barLen (bcount [10] b) (max_count [10])⟩) ∧
      (intervalRows [10]).length =
        ((ibucket M - ibucket m) / HIST_BUCKET_MS).toNat + 2 ∧
      (∀ i : Nat, ∀ hil : i < (intervalRows [10]).length,
        (intervalRows [10]).getD i ⟨0, 0, 0⟩ =
          ⟨ibucket m + HIST_BUCKET_MS * (i : ℤ),
           bcount [10] (ibucket m + HIST_BUCKET_MS * (i : ℤ)),
           barLen (bcount [10] (ibucket m + HIST_BUCKET_MS * (i : ℤ)))
             (max_count [10])⟩) ∧
      (∀ c mc : Nat, barLen c mc = pyRound ((c : ℚ) / (mc : ℚ) * (bar_w : ℚ))) :=
  C3_interval_histogram [10] (by simp)

end BatteryWatch
